import Mathlib

/-
Shallow embedding of the ZSL (zero-shutter-lag) correlation engine from
services/camera/libcameraservice/camera2/ZslProcessor.cpp.

The component keeps two fixed-capacity ring buffers: `mZslQueue`, a ring of
(buffer, metadata) pair slots with cursors `mZslQueueHead`/`mZslQueueTail`,
and `mFrameList`, a rotating history of metadata records with a single write
cursor `mFrameListHead`.  Metadata (`CameraMetadata`) is modelled from the
spec's data model as an opaque record that is either empty or carries an
optional capture timestamp (the ANDROID_SENSOR_TIMESTAMP entry may be
absent).  Buffers carry an opaque handle and a timestamp; a zero timestamp
marks an absent buffer.  status_t values are mathematical integers with the
Android numeric values (OK = 0, BAD_VALUE = -22, INVALID_OPERATION = -38).
Timestamps are mathematical integers: sensor timestamps are nanosecond
monotonic-clock readings, and signed-int64 overflow in the source would be
undefined behaviour, so the embedding uses Int arithmetic directly.
-/

namespace Zsl

/-- Lifecycle state of the processor: RUNNING admits buffers, LOCKED is
entered after a pair has been dispatched for reprocessing. -/
inductive ProcState where
  | RUNNING : ProcState
  | LOCKED : ProcState
deriving DecidableEq, Repr

/-- CameraMetadata modelled from the spec: either empty (no record), or a
non-empty record whose sensor-timestamp entry may be present or absent. -/
inductive Metadata where
  | empty : Metadata
  | record : Option Int → Metadata
deriving DecidableEq, Repr

/-- CameraMetadata::isEmpty. -/
def Metadata.isEmpty : Metadata → Bool
  | .empty => true
  | .record _ => false

/-- BufferItemConsumer::BufferItem, reduced to the fields the engine reads:
the graphic-buffer handle and mTimestamp. -/
structure Buffer where
  handle : Nat
  mTimestamp : Int
deriving DecidableEq, Repr

/-- Default-constructed BufferItem: timestamp 0 marks no buffer present. -/
def noBuffer : Buffer := ⟨0, 0⟩

/-- ZslPair: one slot of the mZslQueue ring. -/
structure ZslPair where
  buffer : Buffer
  frame : Metadata
deriving DecidableEq, Repr

/-- Default-constructed ZslPair, as produced by Vector::replaceAt. -/
def emptyPair : ZslPair := ⟨noBuffer, Metadata.empty⟩

/-- Mutable state of the ZslProcessor guarded by mInputMutex. -/
structure ZslState where
  mState : ProcState
  mZslQueue : List ZslPair
  mFrameList : List Metadata
  mFrameListHead : Nat
  mZslQueueHead : Nat
  mZslQueueTail : Nat
deriving DecidableEq, Repr

/-- android status_t OK. -/
def OK : Int := 0

/-- android status_t BAD_VALUE (-EINVAL). -/
def BAD_VALUE : Int := -22

/-- android status_t INVALID_OPERATION (-ENOSYS). -/
def INVALID_OPERATION : Int := -38

/-- One comparison of the inner loop of findMatchesLocked: a non-empty frame
with a timestamp entry matches when the timestamps are equal or the absolute
delta is below 1000000 ns; a frame with no timestamp entry is skipped. -/
def frameMatches (bufferTimestamp : Int) : Metadata → Bool
  | .empty => false
  | .record none => false
  | .record (some frameTimestamp) =>
    if bufferTimestamp = frameTimestamp then true
    else (bufferTimestamp - frameTimestamp).natAbs < 1000000

/-- Inner j-loop of findMatchesLocked over mFrameList: return the first
matching record (frame.acquire empties the history slot it came from) and
the updated history. -/
def scanHistory (bufferTimestamp : Int) : List Metadata → Option Metadata × List Metadata
  | [] => (none, [])
  | f :: rest =>
    if frameMatches bufferTimestamp f then (some f, Metadata.empty :: rest)
    else
      let r := scanHistory bufferTimestamp rest
      (r.1, f :: r.2)

/-- Outer i-loop of findMatchesLocked over mZslQueue: each buffer-only slot
with a nonzero timestamp scans the history, threading history updates into
later iterations. -/
def findMatchesQueue : List ZslPair → List Metadata → List ZslPair × List Metadata
  | [], frames => ([], frames)
  | e :: rest, frames =>
    if e.frame.isEmpty && e.buffer.mTimestamp != 0 then
      match scanHistory e.buffer.mTimestamp frames with
      | (some f, frames1) =>
        let r := findMatchesQueue rest frames1
        ({ e with frame := f } :: r.1, r.2)
      | (none, frames1) =>
        let r := findMatchesQueue rest frames1
        (e :: r.1, r.2)
    else
      let r := findMatchesQueue rest frames
      (e :: r.1, r.2)

/-- ZslProcessor::findMatchesLocked. -/
def findMatchesLocked (s : ZslState) : ZslState :=
  let r := findMatchesQueue s.mZslQueue s.mFrameList
  { s with mZslQueue := r.1, mFrameList := r.2 }

/-- ZslProcessor::onFrameAvailable(int32_t, CameraMetadata&): the metadata
arrival callback.  The source reads the timestamp entry first (only for a
compiled-out verbose log), returns early when mState is not RUNNING, and
otherwise acquires the frame into mFrameList at mFrameListHead, advances the
cursor modulo the list depth, and runs findMatchesLocked in the same
critical section. -/
def onFrameAvailableMeta (s : ZslState) (frame : Metadata) : ZslState :=
  if s.mState ≠ ProcState.RUNNING then s
  else
    findMatchesLocked
      { s with
        mFrameList := s.mFrameList.set s.mFrameListHead frame,
        mFrameListHead := (s.mFrameListHead + 1) % s.mFrameList.length }

/-- ZslProcessor::onBufferReleased: compares the released handle with the
tail slot's buffer handle (mismatch is only logged; the Bool records whether
the mismatch log fired) and unconditionally sets mState to RUNNING. -/
def onBufferReleased (s : ZslState) (handle : Nat) : ZslState × Bool :=
  let expectedHandle := ((s.mZslQueue.getD s.mZslQueueTail emptyPair).buffer).handle
  ({ s with mState := ProcState.RUNNING }, handle != expectedHandle)

/-- Result of processNewZslBuffer: the returned status_t, the state after
the call, and the buffers handed back to mZslConsumer::releaseBuffer. -/
structure ProcessResult where
  res : Int
  state : ZslState
  released : List Buffer
deriving DecidableEq, Repr

/-- ZslProcessor::processNewZslBuffer from the point where acquireBuffer has
yielded `item`: while LOCKED the item is released back and the state is
untouched; otherwise on a full ring ((head+1) mod depth == tail) the tail
slot's buffer is released, the slot cleared and tail advanced, then the item
is written at head with an empty frame, head advances, and findMatchesLocked
runs. -/
def processNewZslBuffer (s : ZslState) (item : Buffer) : ProcessResult :=
  if s.mState = ProcState.LOCKED then
    ⟨OK, s, [item]⟩
  else
    let depth := s.mZslQueue.length
    let evict := (s.mZslQueueHead + 1) % depth = s.mZslQueueTail
    let released := if evict
      then [(s.mZslQueue.getD s.mZslQueueTail emptyPair).buffer]
      else []
    let q1 := if evict then s.mZslQueue.set s.mZslQueueTail emptyPair else s.mZslQueue
    let tail1 := if evict then (s.mZslQueueTail + 1) % depth else s.mZslQueueTail
    let s1 : ZslState :=
      { s with
        mZslQueue := (q1.set s.mZslQueueHead ⟨item, Metadata.empty⟩),
        mZslQueueTail := tail1,
        mZslQueueHead := (s.mZslQueueHead + 1) % depth }
    ⟨OK, findMatchesLocked s1, released⟩

/-- Feed a list of acquired buffers through processNewZslBuffer one at a
time, collecting every buffer released back to the consumer. -/
def admitAll (s : ZslState) : List Buffer → ZslState × List Buffer
  | [] => (s, [])
  | b :: rest =>
    let r := processNewZslBuffer s b
    let r2 := admitAll r.state rest
    (r2.1, r.released ++ r2.2)

/-- Outcomes of the external collaborators touched by pushToReprocess: the
weak-client promotion, the four CameraMetadata::update calls, the
pushReprocessBuffer submission and the capture submission. -/
structure Ext where
  clientAlive : Bool
  updateTypeRes : Int
  updateInputStreamsRes : Int
  updateOutputStreamsRes : Int
  updateRequestIdRes : Int
  pushReprocessRes : Int
  captureRes : Int
deriving DecidableEq, Repr

/-- Result of pushToReprocess: the returned status_t, the state after the
call, and the (buffer handle, metadata) pair submitted to the reprocessing
path, when the submission point was reached. -/
structure PushResult where
  res : Int
  state : ZslState
  dispatched : Option (Nat × Metadata)
deriving DecidableEq, Repr

/-- The while loop of pushToReprocess: starting from the tail cursor, copy
each slot's frame into `request` until the copy is non-empty or the head
cursor is reached; the index is incremented after every copy, so on exit it
is one past the slot the non-empty request came from.  Fuel bounds the
iteration count; the callers pass the queue length, which the loop can never
exceed. -/
def selectLoop (queue : List ZslPair) (head : Nat) :
    Nat → Metadata → Nat → Metadata × Nat
  | 0, request, index => (request, index)
  | fuel + 1, request, index =>
    if request.isEmpty && index != head then
      selectLoop queue head fuel (queue.getD index emptyPair).frame
        ((index + 1) % queue.length)
    else (request, index)

/-- ZslProcessor::pushToReprocess.  A failed client promotion returns the
C++ literal `false`, which converts to status_t 0.  With a non-empty ring,
the selection loop runs; an empty selected request yields BAD_VALUE.  The
buffer handle is then taken from slot `index` as left by the loop.  Of the
four CameraMetadata::update calls the source keeps only the ANDROID_REQUEST_ID
result in `res` (the ANDROID_REQUEST_TYPE result is overwritten and the two
stream updates are evaluated only under the stale `res == OK` guard), so
only that result gates INVALID_OPERATION.  mState becomes LOCKED only after
both pushReprocessBuffer and capture return OK. -/
def pushToReprocess (s : ZslState) (ext : Ext) : PushResult :=
  if ext.clientAlive = false then ⟨(0 : Int), s, none⟩
  else if s.mZslQueueTail ≠ s.mZslQueueHead then
    let sel := selectLoop s.mZslQueue s.mZslQueueHead s.mZslQueue.length
      Metadata.empty s.mZslQueueTail
    let request := sel.1
    let index := sel.2
    if request.isEmpty then ⟨BAD_VALUE, s, none⟩
    else
      let handle := ((s.mZslQueue.getD index emptyPair).buffer).handle
      let res := ext.updateRequestIdRes
      if res ≠ OK then ⟨INVALID_OPERATION, s, none⟩
      else if ext.pushReprocessRes ≠ OK then
        ⟨ext.pushReprocessRes, s, some (handle, request)⟩
      else if ext.captureRes ≠ OK then
        ⟨ext.captureRes, s, some (handle, request)⟩
      else ⟨OK, { s with mState := ProcState.LOCKED }, some (handle, request)⟩
  else ⟨BAD_VALUE, s, none⟩

/-- Number of non-empty metadata records in a frame history. -/
def liveCount : List Metadata → Nat
  | [] => 0
  | f :: rest => (if f.isEmpty then 0 else 1) + liveCount rest

/-- Number of queue slots that went from frame-absent to frame-present
between two snapshots of the ring, i.e. pairs completed by one pass. -/
def numPaired : List ZslPair → List ZslPair → Nat
  | [], _ => 0
  | _, [] => 0
  | e :: q, f :: q' =>
    (if e.frame.isEmpty && !f.frame.isEmpty then 1 else 0) + numPaired q q'

/-- Buffers present in the ring (slots whose buffer timestamp is nonzero). -/
def presentBuffers (q : List ZslPair) : List Buffer :=
  q.filterMap (fun p => if p.buffer.mTimestamp = 0 then none else some p.buffer)

/-- State built by the ZslProcessor constructor: RUNNING, both rings
pre-sized with default entries, all cursors zero. -/
def initialState (depth frames : Nat) : ZslState :=
  { mState := ProcState.RUNNING
    mZslQueue := List.replicate depth emptyPair
    mFrameList := List.replicate frames Metadata.empty
    mFrameListHead := 0
    mZslQueueHead := 0
    mZslQueueTail := 0 }

/-- Well-formedness of a state reached by admitting buffers with no
metadata in flight: the logical ring content is the buffer list `L`,
laid out at positions tail, tail+1, ... modulo the depth, every other
slot is default, the history is all-empty and the state is RUNNING. -/
def wfScenario (s : ZslState) (depth : Nat) (L : List Buffer) : Prop :=
  s.mState = ProcState.RUNNING ∧
  s.mZslQueue.length = depth ∧
  (∀ f ∈ s.mFrameList, f = Metadata.empty) ∧
  s.mZslQueueTail < depth ∧
  s.mZslQueueHead = (s.mZslQueueTail + L.length) % depth ∧
  L.length < depth ∧
  (∀ r, r < L.length →
    s.mZslQueue.getD ((s.mZslQueueTail + r) % depth) emptyPair
      = ⟨L.getD r noBuffer, Metadata.empty⟩) ∧
  (∀ j, j < depth → (∀ r, r < L.length → j ≠ (s.mZslQueueTail + r) % depth) →
    s.mZslQueue.getD j emptyPair = emptyPair)

/-- Specification-level bounded FIFO of capacity depth-1: the ring content
after pushing a list of buffers. -/
def boundedPush (depth : Nat) (L : List Buffer) : List Buffer → List Buffer
  | [] => L
  | b :: rest =>
    boundedPush depth (if L.length = depth - 1 then L.drop 1 ++ [b] else L ++ [b]) rest

/-- Specification-level bounded FIFO of capacity depth-1: the buffers
evicted while pushing a list of buffers. -/
def boundedReleased (depth : Nat) (L : List Buffer) : List Buffer → List Buffer
  | [] => []
  | b :: rest =>
    if L.length = depth - 1 then
      L.getD 0 noBuffer :: boundedReleased depth (L.drop 1 ++ [b]) rest
    else boundedReleased depth (L ++ [b]) rest

end Zsl

namespace Zsl

/-- Any getD result satisfies a property holding for the default and for
every member of the list. -/
theorem getD_of_all {α : Type} {P : α → Prop} {d : α} (hd : P d) :
    ∀ (l : List α), (∀ a ∈ l, P a) → ∀ i, P (l.getD i d) := by
  intro l
  induction l with
  | nil => intro _ i; simpa [List.getD] using hd
  | cons a t ih =>
    intro h i
    cases i with
    | zero => simpa [List.getD] using h a (by simp)
    | succ n =>
      simpa [List.getD] using ih (fun x hx => h x (by simp [hx])) n

/-- Metadata.isEmpty decides equality with the empty record. -/
theorem isEmpty_true_iff (m : Metadata) : m.isEmpty = true ↔ m = Metadata.empty := by
  cases m <;> simp [Metadata.isEmpty]

/-- frameMatches holds exactly for a record carrying a timestamp that is
equal to the buffer timestamp or within the 1 ms tolerance. -/
theorem frameMatches_true_iff (ts : Int) (f : Metadata) :
    frameMatches ts f = true ↔
      ∃ t, f = Metadata.record (some t) ∧ (ts = t ∨ (ts - t).natAbs < 1000000) := by
  cases f with
  | empty => simp [frameMatches]
  | record o =>
    cases o with
    | none => simp [frameMatches]
    | some t =>
      by_cases h : ts = t
      · simp [frameMatches, h]
      · simp [frameMatches, h]

/-- Unfolding equation for scanHistory on a cons cell. -/
theorem scanHistory_cons (ts : Int) (f : Metadata) (rest : List Metadata) :
    scanHistory ts (f :: rest) =
      if frameMatches ts f then (some f, Metadata.empty :: rest)
      else ((scanHistory ts rest).1, f :: (scanHistory ts rest).2) := by
  simp [scanHistory]

/-- scanHistory preserves the history length. -/
theorem scanHistory_snd_length (ts : Int) : ∀ fr : List Metadata,
    ((scanHistory ts fr).2).length = fr.length := by
  intro fr
  induction fr with
  | nil => rfl
  | cons f rest ih =>
    rw [scanHistory_cons]
    split
    · simp
    · simpa using ih

/-- A scan that found nothing leaves the history unchanged. -/
theorem scanHistory_none (ts : Int) : ∀ fr : List Metadata,
    (scanHistory ts fr).1 = none → (scanHistory ts fr).2 = fr := by
  intro fr
  induction fr with
  | nil => intro _; rfl
  | cons f rest ih =>
    rw [scanHistory_cons]
    split
    · intro h; simp at h
    · intro h
      simp only at h ⊢
      rw [ih h]

/-- A scan that found a record found a matching one at a first position j,
emptied exactly that history slot, and every earlier slot failed to match. -/
theorem scanHistory_some (ts : Int) : ∀ (fr : List Metadata) (f : Metadata),
    (scanHistory ts fr).1 = some f →
    frameMatches ts f = true ∧
    ∃ j, j < fr.length ∧ fr.getD j Metadata.empty = f ∧
      (scanHistory ts fr).2 = fr.set j Metadata.empty ∧
      ∀ i, i < j → frameMatches ts (fr.getD i Metadata.empty) = false := by
  intro fr
  induction fr with
  | nil => intro f h; simp [scanHistory] at h
  | cons g rest ih =>
    intro f h
    rw [scanHistory_cons] at h ⊢
    by_cases hm : frameMatches ts g = true
    · rw [if_pos hm] at h ⊢
      simp only [Prod.fst] at h
      have hgf : g = f := by simpa using h
      subst hgf
      refine ⟨hm, 0, by simp, by simp [List.getD], by simp, ?_⟩
      intro i hi; omega
    · rw [if_neg hm] at h ⊢
      simp only at h
      obtain ⟨hmf, j, hj, hget, hset, hfirst⟩ := ih f h
      refine ⟨hmf, j + 1, by simpa using hj, by simpa [List.getD] using hget, ?_, ?_⟩
      · simp only
        rw [hset]
        rfl
      · intro i hi
        cases i with
        | zero =>
          have : frameMatches ts g = false := by simpa using hm
          simpa [List.getD] using this
        | succ n => simpa [List.getD] using hfirst n (by omega)

/-- A scan that consumed a record decreases the live-record count by one. -/
theorem scanHistory_liveCount (ts : Int) : ∀ (fr : List Metadata) (f : Metadata),
    (scanHistory ts fr).1 = some f →
    liveCount (scanHistory ts fr).2 + 1 = liveCount fr := by
  intro fr
  induction fr with
  | nil => intro f h; simp [scanHistory] at h
  | cons g rest ih =>
    intro f h
    rw [scanHistory_cons] at h ⊢
    by_cases hm : frameMatches ts g = true
    · rw [if_pos hm] at h ⊢
      obtain ⟨t, hg, _⟩ := (frameMatches_true_iff ts g).mp hm
      subst hg
      simp [liveCount, Metadata.isEmpty]
      omega
    · rw [if_neg hm] at h ⊢
      simp only at h ⊢
      have := ih f h
      simp [liveCount]
      omega

/-- A history slot whose record can never match (for this timestamp) is left
untouched by the scan. -/
theorem scanHistory_preserves (ts : Int) : ∀ (fr : List Metadata) (j : Nat) (m : Metadata),
    fr.getD j Metadata.empty = m → frameMatches ts m = false →
    (scanHistory ts fr).2.getD j Metadata.empty = m := by
  intro fr
  induction fr with
  | nil => intro j m hg _; simpa [List.getD] using hg
  | cons g rest ih =>
    intro j m hg hnm
    rw [scanHistory_cons]
    by_cases hm : frameMatches ts g = true
    · rw [if_pos hm]
      cases j with
      | zero =>
        simp [List.getD] at hg
        rw [hg] at hm
        rw [hm] at hnm
        simp at hnm
      | succ n => simpa [List.getD] using hg
    · rw [if_neg hm]
      cases j with
      | zero => simpa [List.getD] using hg
      | succ n =>
        simp only [List.getD] at hg ⊢
        simpa [List.getD] using ih n m (by simpa [List.getD] using hg) hnm

/-- A scan over an all-empty history finds nothing and changes nothing. -/
theorem scanHistory_all_empty (ts : Int) : ∀ fr : List Metadata,
    (∀ f ∈ fr, f = Metadata.empty) → scanHistory ts fr = (none, fr) := by
  intro fr
  induction fr with
  | nil => intro _; rfl
  | cons g rest ih =>
    intro h
    have hg : g = Metadata.empty := h g (by simp)
    rw [scanHistory_cons, hg]
    have : frameMatches ts Metadata.empty = false := rfl
    rw [if_neg (by simp [this])]
    rw [ih (fun f hf => h f (by simp [hf]))]

/-- Unfolding equation for findMatchesQueue when the slot is skipped. -/
theorem fmq_cons_skip (e : ZslPair) (rest : List ZslPair) (fr : List Metadata)
    (h : (e.frame.isEmpty && e.buffer.mTimestamp != 0) = false) :
    findMatchesQueue (e :: rest) fr =
      (e :: (findMatchesQueue rest fr).1, (findMatchesQueue rest fr).2) := by
  simp [findMatchesQueue, h]

/-- Unfolding equation for findMatchesQueue when the slot scans and the scan
finds a record. -/
theorem fmq_cons_some (e : ZslPair) (rest : List ZslPair) (fr : List Metadata)
    (f : Metadata) (fr1 : List Metadata)
    (h : (e.frame.isEmpty && e.buffer.mTimestamp != 0) = true)
    (hs : scanHistory e.buffer.mTimestamp fr = (some f, fr1)) :
    findMatchesQueue (e :: rest) fr =
      ({ e with frame := f } :: (findMatchesQueue rest fr1).1,
        (findMatchesQueue rest fr1).2) := by
  simp [findMatchesQueue, h, hs]

/-- Unfolding equation for findMatchesQueue when the slot scans and the scan
finds nothing. -/
theorem fmq_cons_none (e : ZslPair) (rest : List ZslPair) (fr : List Metadata)
    (fr1 : List Metadata)
    (h : (e.frame.isEmpty && e.buffer.mTimestamp != 0) = true)
    (hs : scanHistory e.buffer.mTimestamp fr = (none, fr1)) :
    findMatchesQueue (e :: rest) fr =
      (e :: (findMatchesQueue rest fr1).1, (findMatchesQueue rest fr1).2) := by
  simp [findMatchesQueue, h, hs]

/-- The matching pass preserves the queue length. -/
theorem fmq_fst_length : ∀ (q : List ZslPair) (fr : List Metadata),
    ((findMatchesQueue q fr).1).length = q.length := by
  intro q
  induction q with
  | nil => intro fr; rfl
  | cons e rest ih =>
    intro fr
    by_cases hc : (e.frame.isEmpty && e.buffer.mTimestamp != 0) = true
    · rcases hsc : scanHistory e.buffer.mTimestamp fr with ⟨o, fr1⟩
      cases o with
      | some f => rw [fmq_cons_some e rest fr f fr1 hc hsc]; simp [ih]
      | none => rw [fmq_cons_none e rest fr fr1 hc hsc]; simp [ih]
    · rw [fmq_cons_skip e rest fr (by simpa using hc)]; simp [ih]

/-- The matching pass preserves the history length. -/
theorem fmq_snd_length : ∀ (q : List ZslPair) (fr : List Metadata),
    ((findMatchesQueue q fr).2).length = fr.length := by
  intro q
  induction q with
  | nil => intro fr; rfl
  | cons e rest ih =>
    intro fr
    by_cases hc : (e.frame.isEmpty && e.buffer.mTimestamp != 0) = true
    · rcases hsc : scanHistory e.buffer.mTimestamp fr with ⟨o, fr1⟩
      have hl : fr1.length = fr.length := by
        have := scanHistory_snd_length e.buffer.mTimestamp fr
        rw [hsc] at this
        simpa using this
      cases o with
      | some f => rw [fmq_cons_some e rest fr f fr1 hc hsc]; simp [ih, hl]
      | none => rw [fmq_cons_none e rest fr fr1 hc hsc]; simp [ih, hl]
    · rw [fmq_cons_skip e rest fr (by simpa using hc)]; simp [ih]

/-- The matching pass never modifies a slot's buffer. -/
theorem fmq_buffer : ∀ (q : List ZslPair) (fr : List Metadata) (k : Nat),
    (((findMatchesQueue q fr).1).getD k emptyPair).buffer
      = (q.getD k emptyPair).buffer := by
  intro q
  induction q with
  | nil => intro fr k; rfl
  | cons e rest ih =>
    intro fr k
    by_cases hc : (e.frame.isEmpty && e.buffer.mTimestamp != 0) = true
    · rcases hsc : scanHistory e.buffer.mTimestamp fr with ⟨o, fr1⟩
      cases o with
      | some f =>
        rw [fmq_cons_some e rest fr f fr1 hc hsc]
        cases k with
        | zero => simp [List.getD]
        | succ n => simpa [List.getD] using ih fr1 n
      | none =>
        rw [fmq_cons_none e rest fr fr1 hc hsc]
        cases k with
        | zero => simp [List.getD]
        | succ n => simpa [List.getD] using ih fr1 n
    · rw [fmq_cons_skip e rest fr (by simpa using hc)]
      cases k with
      | zero => simp [List.getD]
      | succ n => simpa [List.getD] using ih fr n

/-- Slot-wise effect of the matching pass: a slot is either untouched, or it
was a buffer-only slot that acquired a record whose timestamp equals the
buffer timestamp or lies within the 1 ms tolerance. -/
theorem fmq_entry : ∀ (q : List ZslPair) (fr : List Metadata) (k : Nat),
    ((findMatchesQueue q fr).1).getD k emptyPair = q.getD k emptyPair ∨
    ((q.getD k emptyPair).frame = Metadata.empty ∧
      (q.getD k emptyPair).buffer.mTimestamp ≠ 0 ∧
      ∃ t, ((findMatchesQueue q fr).1).getD k emptyPair
            = { q.getD k emptyPair with frame := Metadata.record (some t) } ∧
        ((q.getD k emptyPair).buffer.mTimestamp = t ∨
          ((q.getD k emptyPair).buffer.mTimestamp - t).natAbs < 1000000)) := by
  intro q
  induction q with
  | nil => intro fr k; left; rfl
  | cons e rest ih =>
    intro fr k
    by_cases hc : (e.frame.isEmpty && e.buffer.mTimestamp != 0) = true
    · rcases hsc : scanHistory e.buffer.mTimestamp fr with ⟨o, fr1⟩
      cases o with
      | some f =>
        rw [fmq_cons_some e rest fr f fr1 hc hsc]
        cases k with
        | zero =>
          right
          have hfe : e.frame = Metadata.empty := by
            have := (Bool.and_eq_true _ _).mp hc
            exact (isEmpty_true_iff e.frame).mp this.1
          have hts : e.buffer.mTimestamp ≠ 0 := by
            have := (Bool.and_eq_true _ _).mp hc
            exact bne_iff_ne.mp this.2
          have hmf : frameMatches e.buffer.mTimestamp f = true := by
            have := scanHistory_some e.buffer.mTimestamp fr f (by rw [hsc])
            exact this.1
          obtain ⟨t, hft, hcond⟩ := (frameMatches_true_iff _ f).mp hmf
          refine ⟨by simpa [List.getD] using hfe, by simpa [List.getD] using hts,
            t, ?_, by simpa [List.getD] using hcond⟩
          simp [List.getD, hft]
        | succ n => simpa [List.getD] using ih fr1 n
      | none =>
        rw [fmq_cons_none e rest fr fr1 hc hsc]
        cases k with
        | zero => left; simp [List.getD]
        | succ n => simpa [List.getD] using ih fr1 n
    · rw [fmq_cons_skip e rest fr (by simpa using hc)]
      cases k with
      | zero => left; simp [List.getD]
      | succ n => simpa [List.getD] using ih fr n

/-- A history slot holding a record with no timestamp entry survives the
whole matching pass untouched: it is never consumed into any pair. -/
theorem fmq_record_none_preserved : ∀ (q : List ZslPair) (fr : List Metadata) (j : Nat),
    fr.getD j Metadata.empty = Metadata.record none →
    ((findMatchesQueue q fr).2).getD j Metadata.empty = Metadata.record none := by
  intro q
  induction q with
  | nil => intro fr j h; simpa using h
  | cons e rest ih =>
    intro fr j h
    by_cases hc : (e.frame.isEmpty && e.buffer.mTimestamp != 0) = true
    · rcases hsc : scanHistory e.buffer.mTimestamp fr with ⟨o, fr1⟩
      have hpres : fr1.getD j Metadata.empty = Metadata.record none := by
        have := scanHistory_preserves e.buffer.mTimestamp fr j (Metadata.record none) h rfl
        rw [hsc] at this
        simpa using this
      cases o with
      | some f => rw [fmq_cons_some e rest fr f fr1 hc hsc]; exact ih fr1 j hpres
      | none => rw [fmq_cons_none e rest fr fr1 hc hsc]; exact ih fr1 j hpres
    · rw [fmq_cons_skip e rest fr (by simpa using hc)]
      exact ih fr j h

/-- With an all-empty history the matching pass is the identity. -/
theorem fmq_all_empty : ∀ (q : List ZslPair) (fr : List Metadata),
    (∀ f ∈ fr, f = Metadata.empty) → findMatchesQueue q fr = (q, fr) := by
  intro q
  induction q with
  | nil => intro fr _; rfl
  | cons e rest ih =>
    intro fr h
    by_cases hc : (e.frame.isEmpty && e.buffer.mTimestamp != 0) = true
    · rw [fmq_cons_none e rest fr fr hc (scanHistory_all_empty _ fr h)]
      rw [ih fr h]
    · rw [fmq_cons_skip e rest fr (by simpa using hc)]
      rw [ih fr h]

/-- Conservation of metadata records over a full matching pass: every pair
completed by the pass consumed exactly one live history record, so a single
record can complete at most one pair. -/
theorem fmq_conservation : ∀ (q : List ZslPair) (fr : List Metadata),
    liveCount ((findMatchesQueue q fr).2) + numPaired q ((findMatchesQueue q fr).1)
      = liveCount fr := by
  intro q
  induction q with
  | nil => intro fr; simp [findMatchesQueue, numPaired]
  | cons e rest ih =>
    intro fr
    by_cases hc : (e.frame.isEmpty && e.buffer.mTimestamp != 0) = true
    · have hce : e.frame.isEmpty = true := ((Bool.and_eq_true _ _).mp hc).1
      rcases hsc : scanHistory e.buffer.mTimestamp fr with ⟨o, fr1⟩
      cases o with
      | some f =>
        rw [fmq_cons_some e rest fr f fr1 hc hsc]
        have hmf : frameMatches e.buffer.mTimestamp f = true :=
          (scanHistory_some e.buffer.mTimestamp fr f (by rw [hsc])).1
        obtain ⟨t, hft, _⟩ := (frameMatches_true_iff _ f).mp hmf
        have hlc : liveCount fr1 + 1 = liveCount fr := by
          have := scanHistory_liveCount e.buffer.mTimestamp fr f (by rw [hsc])
          rw [hsc] at this
          simpa using this
        have hnp : numPaired (e :: rest) ({ e with frame := f } :: (findMatchesQueue rest fr1).1)
            = 1 + numPaired rest ((findMatchesQueue rest fr1).1) := by
          have hrec : (Metadata.record (some t)).isEmpty = false := rfl
          simp [numPaired, hce, hft, hrec]
        simp only [Prod.fst, Prod.snd]
        rw [hnp]
        have := ih fr1
        omega
      | none =>
        rw [fmq_cons_none e rest fr fr1 hc hsc]
        have hfr1 : fr1 = fr := by
          have := scanHistory_none e.buffer.mTimestamp fr (by rw [hsc])
          rw [hsc] at this
          simpa using this
        subst hfr1
        have hnp : numPaired (e :: rest) (e :: (findMatchesQueue rest fr1).1)
            = numPaired rest ((findMatchesQueue rest fr1).1) := by
          simp [numPaired]
        simp only [Prod.fst, Prod.snd]
        rw [hnp]
        exact ih fr1
    · rw [fmq_cons_skip e rest fr (by simpa using hc)]
      have hnp : numPaired (e :: rest) (e :: (findMatchesQueue rest fr).1)
          = numPaired rest ((findMatchesQueue rest fr).1) := by
        simp [numPaired]
      simp only [Prod.fst, Prod.snd]
      rw [hnp]
      exact ih fr

/-- Reading back the overwritten position of a set. -/
theorem getD_set_self {α : Type} : ∀ (l : List α) (j : Nat) (a d : α), j < l.length →
    (l.set j a).getD j d = a := by
  intro l
  induction l with
  | nil => intro j a d h; simp at h
  | cons x t ih =>
    intro j a d h
    cases j with
    | zero => simp [List.getD]
    | succ n => simpa [List.getD] using ih n a d (by simpa using h)

/-- Reading any other position of a set. -/
theorem getD_set_ne {α : Type} : ∀ (l : List α) (i j : Nat) (a d : α), i ≠ j →
    (l.set j a).getD i d = l.getD i d := by
  intro l
  induction l with
  | nil => intro i j a d _; simp
  | cons x t ih =>
    intro i j a d h
    cases j with
    | zero =>
      cases i with
      | zero => exact absurd rfl h
      | succ n => simp [List.getD]
    | succ m =>
      cases i with
      | zero => simp [List.getD]
      | succ n => simpa [List.getD] using ih n m a d (by omega)

/-- When every slot of the ring has an empty frame, the selection loop of
pushToReprocess can only ever copy empty requests. -/
theorem selectLoop_empty (q : List ZslPair) (head : Nat)
    (hq : ∀ p ∈ q, p.frame = Metadata.empty) :
    ∀ (fuel : Nat) (req : Metadata) (idx : Nat), req.isEmpty = true →
      ((selectLoop q head fuel req idx).1).isEmpty = true := by
  intro fuel
  induction fuel with
  | zero => intro req idx h; simpa [selectLoop] using h
  | succ n ih =>
    intro req idx h
    rw [selectLoop]
    split
    · apply ih
      have hget := getD_of_all (P := fun p : ZslPair => p.frame = Metadata.empty)
        (d := emptyPair) rfl q hq idx
      rw [hget]
      rfl
    · exact h

/-- pushToReprocess either leaves the state exactly as it was, or (only when
both external submissions succeeded) returns OK with the state moved to
LOCKED and nothing else changed. -/
theorem push_state_cases (s : ZslState) (ext : Ext) :
    (pushToReprocess s ext).state = s
    ∨ ((pushToReprocess s ext).state = { s with mState := ProcState.LOCKED }
        ∧ (pushToReprocess s ext).res = OK
        ∧ ext.pushReprocessRes = OK ∧ ext.captureRes = OK) := by
  by_cases hca : ext.clientAlive = false
  · left; simp [pushToReprocess, hca]
  · by_cases hne : s.mZslQueueTail ≠ s.mZslQueueHead
    · by_cases hreq : ((selectLoop s.mZslQueue s.mZslQueueHead s.mZslQueue.length
          Metadata.empty s.mZslQueueTail).1).isEmpty = true
      · left; simp [pushToReprocess, hca, hne, hreq]
      · by_cases hup : ext.updateRequestIdRes = OK
        · by_cases hpush : ext.pushReprocessRes = OK
          · by_cases hcap : ext.captureRes = OK
            · right; simp [pushToReprocess, hca, hne, hreq, hup, hpush, hcap]
            · left; simp [pushToReprocess, hca, hne, hreq, hup, hpush, hcap]
          · left; simp [pushToReprocess, hca, hne, hreq, hup, hpush]
        · left; simp [pushToReprocess, hca, hne, hreq, hup]
    · left; simp [pushToReprocess, hca, hne]

/-- When not LOCKED, processNewZslBuffer writes the incoming item into the
head slot (whatever matching then does to the slot's metadata). -/
theorem process_admits (s : ZslState) (item : Buffer)
    (hns : s.mState ≠ ProcState.LOCKED) (hh : s.mZslQueueHead < s.mZslQueue.length) :
    ((processNewZslBuffer s item).state.mZslQueue.getD s.mZslQueueHead emptyPair).buffer
      = item := by
  by_cases hev : (s.mZslQueueHead + 1) % s.mZslQueue.length = s.mZslQueueTail
  · have hstate : (processNewZslBuffer s item).state
        = findMatchesLocked
            { s with
              mZslQueue := (s.mZslQueue.set s.mZslQueueTail emptyPair).set
                  s.mZslQueueHead ⟨item, Metadata.empty⟩,
              mZslQueueTail := (s.mZslQueueTail + 1) % s.mZslQueue.length,
              mZslQueueHead := (s.mZslQueueHead + 1) % s.mZslQueue.length } := by
      simp [processNewZslBuffer, hns, hev]
    rw [hstate]
    simp only [findMatchesLocked]
    rw [fmq_buffer]
    rw [getD_set_self _ _ _ _ (by simpa using hh)]
  · have hstate : (processNewZslBuffer s item).state
        = findMatchesLocked
            { s with
              mZslQueue := s.mZslQueue.set s.mZslQueueHead ⟨item, Metadata.empty⟩,
              mZslQueueHead := (s.mZslQueueHead + 1) % s.mZslQueue.length } := by
      simp [processNewZslBuffer, hns, hev]
    rw [hstate]
    simp only [findMatchesLocked]
    rw [fmq_buffer]
    rw [getD_set_self _ _ _ _ (by simpa using hh)]

/-- C1: a pair is formed between a buffer timestamp and a metadata timestamp
iff they are equal or their absolute difference is below 1000000 ns, and in
any matching pass, whenever a slot acquires metadata, the acquired record's
timestamp is equal to the slot's buffer timestamp or within that tolerance —
never otherwise. -/
theorem C1_tolerance_matching (tb tm : Int) (htb : tb ≠ 0) :
    ((((findMatchesQueue [⟨⟨7, tb⟩, Metadata.empty⟩]
          [Metadata.record (some tm)]).1.getD 0 emptyPair).frame
        = Metadata.record (some tm))
      ↔ (tb = tm ∨ (tb - tm).natAbs < 1000000))
    ∧ ∀ (q : List ZslPair) (fr : List Metadata) (k : Nat),
        ((findMatchesQueue q fr).1.getD k emptyPair).frame
            ≠ (q.getD k emptyPair).frame →
        ∃ t, ((findMatchesQueue q fr).1.getD k emptyPair).frame
              = Metadata.record (some t) ∧
          ((q.getD k emptyPair).buffer.mTimestamp = t ∨
            ((q.getD k emptyPair).buffer.mTimestamp - t).natAbs < 1000000) := by
  have hcond : ((⟨⟨7, tb⟩, Metadata.empty⟩ : ZslPair).frame.isEmpty
      && (⟨⟨7, tb⟩, Metadata.empty⟩ : ZslPair).buffer.mTimestamp != 0) = true := by
    simp [Metadata.isEmpty, bne_iff_ne, htb]
  constructor
  · by_cases hm : frameMatches tb (Metadata.record (some tm)) = true
    · have hs : scanHistory tb [Metadata.record (some tm)]
          = (some (Metadata.record (some tm)), [Metadata.empty]) := by
        rw [scanHistory_cons, if_pos hm]
      rw [fmq_cons_some _ _ _ _ _ hcond hs]
      refine iff_of_true ?_ ?_
      · simp [List.getD, findMatchesQueue]
      · obtain ⟨t, hft, hcnd⟩ := (frameMatches_true_iff tb _).mp hm
        have htt : t = tm := by
          injection hft with h1
          injection h1 with h2
          exact h2.symm
        subst htt
        exact hcnd
    · have hmf : frameMatches tb (Metadata.record (some tm)) = false := by
        simpa using hm
      have hs : scanHistory tb [Metadata.record (some tm)]
          = (none, [Metadata.record (some tm)]) := by
        rw [scanHistory_cons, if_neg (by simp [hmf])]
        rfl
      rw [fmq_cons_none _ _ _ _ hcond hs]
      refine iff_of_false ?_ ?_
      · simp [List.getD, findMatchesQueue, Metadata.isEmpty]
      · intro hrhs
        exact absurd ((frameMatches_true_iff tb _).mpr ⟨tm, rfl, hrhs⟩) (by simp [hmf])
  · intro q fr k hne
    rcases fmq_entry q fr k with h | ⟨_, _, t, heq, hcond2⟩
    · exact absurd (by rw [h]) hne
    · exact ⟨t, by rw [heq], hcond2⟩

/-- C1 witness: equal timestamps (tb = tm = 5) form a pair. -/
theorem C1_tolerance_matching_witness :
    (5 : Int) ≠ 0 ∧
    ((((findMatchesQueue [⟨⟨7, 5⟩, Metadata.empty⟩]
          [Metadata.record (some 5)]).1.getD 0 emptyPair).frame
        = Metadata.record (some 5))
      ↔ ((5 : Int) = 5 ∨ ((5 : Int) - 5).natAbs < 1000000)) :=
  ⟨by decide, (C1_tolerance_matching 5 5 (by decide)).1⟩

/-- C2: with slots 0 and 2 complete and slot 1 buffer-only (tail 0, head 3),
pushToReprocess succeeds but submits slot 0's metadata together with slot
1's buffer handle (11), not slot 0's own buffer (handle 10): the selection
loop increments the index after copying the frame, so the handle is read one
slot past the slot the selected metadata came from. -/
theorem C2_dispatch_off_by_one :
    (pushToReprocess
        { mState := ProcState.RUNNING
          mZslQueue := [⟨⟨10, 100⟩, Metadata.record (some 100)⟩,
                        ⟨⟨11, 200⟩, Metadata.empty⟩,
                        ⟨⟨12, 300⟩, Metadata.record (some 300)⟩,
                        emptyPair]
          mFrameList := [Metadata.empty, Metadata.empty]
          mFrameListHead := 0
          mZslQueueHead := 3
          mZslQueueTail := 0 }
        ⟨true, OK, OK, OK, OK, OK, OK⟩).dispatched
      = some (11, Metadata.record (some 100)) ∧ (11 : Nat) ≠ 10 := by decide

/-- C4 counterexample: a record arriving while the state is LOCKED is
dropped — the state (including the frame history and its write cursor) is
completely unchanged and the record is nowhere in the history, refuting the
claim that insertion happens regardless of lifecycle state. -/
theorem C4_record_dropped_when_locked :
    onFrameAvailableMeta
        { mState := ProcState.LOCKED
          mZslQueue := [emptyPair]
          mFrameList := [Metadata.empty, Metadata.empty]
          mFrameListHead := 0
          mZslQueueHead := 0
          mZslQueueTail := 0 }
        (Metadata.record (some 5))
      = { mState := ProcState.LOCKED
          mZslQueue := [emptyPair]
          mFrameList := [Metadata.empty, Metadata.empty]
          mFrameListHead := 0
          mZslQueueHead := 0
          mZslQueueTail := 0 } ∧
    Metadata.record (some 5) ∉
      (onFrameAvailableMeta
        { mState := ProcState.LOCKED
          mZslQueue := [emptyPair]
          mFrameList := [Metadata.empty, Metadata.empty]
          mFrameListHead := 0
          mZslQueueHead := 0
          mZslQueueTail := 0 }
        (Metadata.record (some 5))).mFrameList := by decide

/-- C4 amended: when the state is RUNNING, the metadata-arrival callback
inserts the record at the write cursor (overwriting the occupant), advances
the cursor modulo the history depth, and runs the match attempt in the same
critical section; when the state is not RUNNING the record is dropped with
no state change. -/
theorem C4_record_semantics (s : ZslState) (m : Metadata)
    (hr : s.mState = ProcState.RUNNING) :
    onFrameAvailableMeta s m =
      findMatchesLocked
        { s with
          mFrameList := s.mFrameList.set s.mFrameListHead m,
          mFrameListHead := (s.mFrameListHead + 1) % s.mFrameList.length } ∧
    (onFrameAvailableMeta s m).mFrameListHead
      = (s.mFrameListHead + 1) % s.mFrameList.length ∧
    ∀ (s' : ZslState) (m' : Metadata), s'.mState ≠ ProcState.RUNNING →
      onFrameAvailableMeta s' m' = s' := by
  refine ⟨?_, ?_, ?_⟩
  · simp [onFrameAvailableMeta, hr]
  · simp [onFrameAvailableMeta, hr, findMatchesLocked]
  · intro s' m' h
    simp [onFrameAvailableMeta, h]

/-- C4 amended witness: inserting a record into a fresh RUNNING state. -/
theorem C4_record_semantics_witness :
    (initialState 1 2).mState = ProcState.RUNNING ∧
    (onFrameAvailableMeta (initialState 1 2) (Metadata.record (some 3))).mFrameListHead
      = ((initialState 1 2).mFrameListHead + 1) % (initialState 1 2).mFrameList.length :=
  ⟨rfl, (C4_record_semantics (initialState 1 2) (Metadata.record (some 3)) rfl).2.1⟩

/-- C5: with a live client and zero complete pairs in the ring the dispatch
fails with BAD_VALUE and the state is untouched; any failing call leaves the
state exactly as it was; and a transition into LOCKED can only happen on a
call in which both external submissions returned OK and the call returned
OK. -/
theorem C5_failure_semantics (s : ZslState) (ext : Ext)
    (hc : ext.clientAlive = true)
    (hempty : ∀ p ∈ s.mZslQueue, p.frame = Metadata.empty) :
    ((pushToReprocess s ext).res = BAD_VALUE ∧ (pushToReprocess s ext).state = s)
    ∧ (∀ (s' : ZslState) (e' : Ext), (pushToReprocess s' e').res ≠ OK →
        (pushToReprocess s' e').state = s')
    ∧ (∀ (s' : ZslState) (e' : Ext), s'.mState ≠ ProcState.LOCKED →
        (pushToReprocess s' e').state.mState = ProcState.LOCKED →
        e'.pushReprocessRes = OK ∧ e'.captureRes = OK ∧
          (pushToReprocess s' e').res = OK) := by
  have hca : ¬ ext.clientAlive = false := by simp [hc]
  refine ⟨?_, ?_, ?_⟩
  · by_cases hne : s.mZslQueueTail ≠ s.mZslQueueHead
    · have hsel := selectLoop_empty s.mZslQueue s.mZslQueueHead hempty
        s.mZslQueue.length Metadata.empty s.mZslQueueTail rfl
      constructor
      · simp [pushToReprocess, hca, hne, hsel]
      · simp [pushToReprocess, hca, hne, hsel]
    · constructor
      · simp [pushToReprocess, hca, hne]
      · simp [pushToReprocess, hca, hne]
  · intro s' e' h
    rcases push_state_cases s' e' with hst | ⟨_, hok, _, _⟩
    · exact hst
    · exact absurd hok h
  · intro s' e' hnl hlocked
    rcases push_state_cases s' e' with hst | ⟨_, hok, hpush, hcap⟩
    · rw [hst] at hlocked
      exact absurd hlocked hnl
    · exact ⟨hpush, hcap, hok⟩

/-- C5 witness: an empty fresh ring with a live client fails BAD_VALUE. -/
theorem C5_failure_semantics_witness :
    ((⟨true, 0, 0, 0, 0, 0, 0⟩ : Ext).clientAlive = true) ∧
    (pushToReprocess (initialState 4 2) ⟨true, 0, 0, 0, 0, 0, 0⟩).res = BAD_VALUE ∧
    (pushToReprocess (initialState 4 2) ⟨true, 0, 0, 0, 0, 0, 0⟩).state
      = initialState 4 2 :=
  ⟨rfl, (C5_failure_semantics (initialState 4 2) ⟨true, 0, 0, 0, 0, 0, 0⟩ rfl
    (by decide)).1⟩

/-- C6: every buffer-release notification moves the state to RUNNING and
changes nothing else, regardless of whether the released handle matches the
expected tail-slot handle; a mismatch is only reported, never blocking the
transition. -/
theorem C6_release_always_resumes (s : ZslState) (handle : Nat) :
    (onBufferReleased s handle).1 = { s with mState := ProcState.RUNNING } := rfl

/-- C7: while LOCKED, a delivered buffer is released straight back to the
source and the entire state — ring, cursors, history — is untouched; after a
release notification the state is RUNNING and the next delivered buffer is
written into the ring at the head slot. -/
theorem C7_locked_drains_and_resumes (s : ZslState) (item : Buffer) (handle : Nat)
    (hl : s.mState = ProcState.LOCKED)
    (hh : s.mZslQueueHead < s.mZslQueue.length) :
    processNewZslBuffer s item = ⟨OK, s, [item]⟩
    ∧ ((onBufferReleased s handle).1).mState = ProcState.RUNNING
    ∧ (((processNewZslBuffer (onBufferReleased s handle).1 item).state.mZslQueue.getD
          s.mZslQueueHead emptyPair).buffer = item) := by
  refine ⟨?_, rfl, ?_⟩
  · simp [processNewZslBuffer, hl]
  · have h3 := process_admits (onBufferReleased s handle).1 item (by
      simp [onBufferReleased]) (by simpa [onBufferReleased] using hh)
    simpa [onBufferReleased] using h3

/-- C7 witness: a LOCKED two-slot state drains and later admits. -/
theorem C7_locked_drains_and_resumes_witness :
    ({ initialState 2 2 with mState := ProcState.LOCKED } : ZslState).mState
        = ProcState.LOCKED ∧
    ({ initialState 2 2 with mState := ProcState.LOCKED } : ZslState).mZslQueueHead
        < ({ initialState 2 2 with mState := ProcState.LOCKED } : ZslState).mZslQueue.length ∧
    processNewZslBuffer { initialState 2 2 with mState := ProcState.LOCKED } ⟨9, 42⟩
      = ⟨OK, { initialState 2 2 with mState := ProcState.LOCKED }, [⟨9, 42⟩]⟩ :=
  ⟨rfl, by decide,
    (C7_locked_drains_and_resumes { initialState 2 2 with mState := ProcState.LOCKED }
      ⟨9, 42⟩ 0 rfl (by decide)).1⟩

/-- C8: a metadata record completes at most one pair.  A scan that consumes
a record does so at the first matching history position, empties exactly
that slot (so the same record can never satisfy a later buffer), and over a
full matching pass the number of live history records decreases by exactly
the number of pairs completed. -/
theorem C8_no_double_pair :
    (∀ (ts : Int) (fr : List Metadata) (f : Metadata),
        (scanHistory ts fr).1 = some f →
        ∃ j, j < fr.length ∧ fr.getD j Metadata.empty = f ∧
          (scanHistory ts fr).2 = fr.set j Metadata.empty ∧
          ((scanHistory ts fr).2).getD j Metadata.empty = Metadata.empty ∧
          ∀ i, i < j → frameMatches ts (fr.getD i Metadata.empty) = false)
    ∧ (∀ (q : List ZslPair) (fr : List Metadata),
        liveCount ((findMatchesQueue q fr).2)
            + numPaired q ((findMatchesQueue q fr).1)
          = liveCount fr) := by
  constructor
  · intro ts fr f h
    obtain ⟨_, j, hj, hget, hset, hfirst⟩ := scanHistory_some ts fr f h
    refine ⟨j, hj, hget, hset, ?_, hfirst⟩
    rw [hset]
    exact getD_set_self fr j Metadata.empty Metadata.empty hj
  · exact fmq_conservation

/-- C8 witness: a single record at timestamp 100 is consumed from slot 0. -/
theorem C8_no_double_pair_witness :
    (scanHistory 100 [Metadata.record (some 100)]).1
        = some (Metadata.record (some 100)) ∧
    ∃ j, j < ([Metadata.record (some 100)] : List Metadata).length ∧
      ([Metadata.record (some 100)] : List Metadata).getD j Metadata.empty
          = Metadata.record (some 100) ∧
      (scanHistory 100 [Metadata.record (some 100)]).2
          = ([Metadata.record (some 100)] : List Metadata).set j Metadata.empty ∧
      ((scanHistory 100 [Metadata.record (some 100)]).2).getD j Metadata.empty
          = Metadata.empty ∧
      ∀ i, i < j →
        frameMatches 100 (([Metadata.record (some 100)] : List Metadata).getD i
          Metadata.empty) = false :=
  ⟨by decide, C8_no_double_pair.1 100 [Metadata.record (some 100)]
    (Metadata.record (some 100)) (by decide)⟩

/-- C9: a metadata record that lacks the timestamp entry is still inserted
by the (RUNNING-state) callback without any fault, it survives every
matching pass untouched, and no ring slot can ever acquire it — it is
excluded from matching on every correlator invocation. -/
theorem C9_missing_timestamp_excluded (s : ZslState)
    (hr : s.mState = ProcState.RUNNING)
    (hlt : s.mFrameListHead < s.mFrameList.length) :
    ((onFrameAvailableMeta s (Metadata.record none)).mFrameList.getD
        s.mFrameListHead Metadata.empty = Metadata.record none)
    ∧ (∀ (q : List ZslPair) (fr : List Metadata) (j : Nat),
        fr.getD j Metadata.empty = Metadata.record none →
        ((findMatchesQueue q fr).2).getD j Metadata.empty = Metadata.record none)
    ∧ (∀ (q : List ZslPair) (fr : List Metadata) (k : Nat),
        ((findMatchesQueue q fr).1.getD k emptyPair).frame = Metadata.record none →
        (q.getD k emptyPair).frame = Metadata.record none) := by
  refine ⟨?_, fmq_record_none_preserved, ?_⟩
  · have hbase : (s.mFrameList.set s.mFrameListHead (Metadata.record none)).getD
        s.mFrameListHead Metadata.empty = Metadata.record none :=
      getD_set_self s.mFrameList s.mFrameListHead (Metadata.record none)
        Metadata.empty hlt
    have hpres := fmq_record_none_preserved
      (s.mZslQueue) (s.mFrameList.set s.mFrameListHead (Metadata.record none))
      s.mFrameListHead hbase
    simpa [onFrameAvailableMeta, hr, findMatchesLocked] using hpres
  · intro q fr k hk
    rcases fmq_entry q fr k with h | ⟨_, _, t, heq, _⟩
    · rw [h] at hk
      exact hk
    · rw [heq] at hk
      simp at hk

/-- C9 witness: a timestampless record inserted into a fresh state stays in
its history slot. -/
theorem C9_missing_timestamp_excluded_witness :
    (initialState 2 3).mState = ProcState.RUNNING ∧
    (initialState 2 3).mFrameListHead < (initialState 2 3).mFrameList.length ∧
    (onFrameAvailableMeta (initialState 2 3) (Metadata.record none)).mFrameList.getD
        (initialState 2 3).mFrameListHead Metadata.empty = Metadata.record none :=
  ⟨rfl, by decide,
    (C9_missing_timestamp_excluded (initialState 2 3) rfl (by decide)).1⟩

/-- C10: when the weak client reference fails to promote, pushToReprocess
returns the C++ literal false, which converts to status_t 0 = OK, while
dispatching nothing and leaving the state untouched — indistinguishable from
success by the return value. -/
theorem C10_dead_client_returns_ok (s : ZslState) (ext : Ext)
    (hc : ext.clientAlive = false) :
    (pushToReprocess s ext).res = OK ∧ (pushToReprocess s ext).state = s ∧
      (pushToReprocess s ext).dispatched = none := by
  simp [pushToReprocess, hc, OK]

/-- C10 witness: dead client on a ring that actually holds a complete pair. -/
theorem C10_dead_client_returns_ok_witness :
    ((⟨false, 0, 0, 0, 0, 0, 0⟩ : Ext).clientAlive = false) ∧
    (pushToReprocess
        { mState := ProcState.RUNNING
          mZslQueue := [⟨⟨10, 100⟩, Metadata.record (some 100)⟩, emptyPair]
          mFrameList := [Metadata.empty]
          mFrameListHead := 0
          mZslQueueHead := 1
          mZslQueueTail := 0 }
        ⟨false, 0, 0, 0, 0, 0, 0⟩).res = OK :=
  ⟨rfl, (C10_dead_client_returns_ok
    { mState := ProcState.RUNNING
      mZslQueue := [⟨⟨10, 100⟩, Metadata.record (some 100)⟩, emptyPair]
      mFrameList := [Metadata.empty]
      mFrameListHead := 0
      mZslQueueHead := 1
      mZslQueueTail := 0 }
    ⟨false, 0, 0, 0, 0, 0, 0⟩ rfl).1⟩

/-- Distinct offsets below the modulus land on distinct ring slots. -/
theorem window_inj {Q t : Nat} (r r' : Nat) (hr : r < Q) (hr' : r' < Q)
    (h : (t + r) % Q = (t + r') % Q) : r = r' := by
  have h2 : r ≡ r' [MOD Q] := Nat.ModEq.add_left_cancel' t h
  have h3 : r % Q = r' % Q := h2
  rw [Nat.mod_eq_of_lt hr, Nat.mod_eq_of_lt hr'] at h3
  exact h3

/-- The ring-full test (head plus one hits tail) holds exactly when the
window already holds depth - 1 entries. -/
theorem full_iff {Q t n : Nat} (hQ : 0 < Q) (ht : t < Q) (hn : n < Q) :
    ((t + n) % Q + 1) % Q = t ↔ n = Q - 1 := by
  rw [Nat.mod_add_mod]
  constructor
  · intro h
    have h4 : (t + (n + 1)) % Q = (t + 0) % Q := by
      rw [← Nat.add_assoc]
      rw [h, Nat.add_zero, Nat.mod_eq_of_lt ht]
    have h5 : (n + 1) ≡ 0 [MOD Q] := Nat.ModEq.add_left_cancel' t h4
    have h6 : (n + 1) % Q = 0 := by simpa [Nat.ModEq] using h5
    rcases Nat.lt_or_ge (n + 1) Q with hlt | hge
    · rw [Nat.mod_eq_of_lt hlt] at h6
      omega
    · omega
  · intro h
    subst h
    have he : t + (Q - 1) + 1 = t + Q := by omega
    rw [he, Nat.add_mod_right]
    exact Nat.mod_eq_of_lt ht

/-- getD into the left part of an append. -/
theorem getD_append_left {α : Type} : ∀ (L M : List α) (r : Nat) (d : α),
    r < L.length → (L ++ M).getD r d = L.getD r d := by
  intro L
  induction L with
  | nil => intro M r d h; simp at h
  | cons x t ih =>
    intro M r d h
    cases r with
    | zero => simp [List.getD]
    | succ n => simpa [List.getD] using ih M n d (by simpa using h)

/-- getD at the seam of appending a single element. -/
theorem getD_append_at_length {α : Type} : ∀ (L : List α) (b d : α),
    (L ++ [b]).getD L.length d = b := by
  intro L
  induction L with
  | nil => intro b d; simp [List.getD]
  | cons x t ih =>
    intro b d
    show (x :: (t ++ [b])).getD (t.length + 1) d = b
    rw [List.getD_cons_succ]
    exact ih b d

/-- getD after dropping the first element. -/
theorem getD_drop_one {α : Type} : ∀ (L : List α) (r : Nat) (d : α),
    (L.drop 1).getD r d = L.getD (r + 1) d := by
  intro L r d
  cases L with
  | nil => simp [List.getD]
  | cons x t => simp [List.getD]

/-- Membership expressed through getD. -/
theorem mem_iff_getD {α : Type} (d : α) : ∀ (l : List α) (a : α),
    a ∈ l ↔ ∃ j, j < l.length ∧ l.getD j d = a := by
  intro l
  induction l with
  | nil => intro a; simp
  | cons x t ih =>
    intro a
    constructor
    · intro h
      rcases List.mem_cons.mp h with h1 | h2
      · exact ⟨0, by simp, by simp [List.getD, h1.symm]⟩
      · obtain ⟨j, hj, hg⟩ := (ih a).mp h2
        exact ⟨j + 1, by simpa using hj, by simpa [List.getD] using hg⟩
    · rintro ⟨j, hj, hg⟩
      cases j with
      | zero =>
        simp only [List.getD] at hg
        simp at hg
        simp [hg.symm]
      | succ n =>
        have := (ih a).mpr ⟨n, by simpa using hj, by simpa [List.getD] using hg⟩
        simp [this]

/-- With an all-empty history a whole matching pass is the identity on the
processor state. -/
theorem findMatchesLocked_id (s : ZslState)
    (h : ∀ f ∈ s.mFrameList, f = Metadata.empty) :
    findMatchesLocked s = s := by
  simp [findMatchesLocked, fmq_all_empty s.mZslQueue s.mFrameList h]

/-- Single-step behaviour of buffer admission on a full ring in the
no-metadata scenario: the tail slot's buffer is released back to the source,
the slot is cleared, both cursors advance, and the incoming buffer lands at
the old head position. -/
theorem step_wf_full (Q : Nat) (hQ : 2 ≤ Q) (s : ZslState) (L : List Buffer)
    (b : Buffer) (hw : wfScenario s Q L) (hfull : L.length = Q - 1) :
    wfScenario (processNewZslBuffer s b).state Q (L.drop 1 ++ [b])
    ∧ (processNewZslBuffer s b).released = [L.getD 0 noBuffer] := by
  obtain ⟨h1, h2, h3, h4, h5, h6, h7, h8⟩ := hw
  have hQ0 : 0 < Q := by omega
  have hn1 : 1 ≤ L.length := by omega
  have hevict : (s.mZslQueueHead + 1) % s.mZslQueue.length = s.mZslQueueTail := by
    rw [h2, h5]
    exact (full_iff hQ0 h4 h6).mpr hfull
  have hns : ¬ s.mState = ProcState.LOCKED := by rw [h1]; intro hc; cases hc
  have hhead : s.mZslQueueHead < Q := by
    rw [h5]; exact Nat.mod_lt _ hQ0
  have hth : s.mZslQueueTail ≠ s.mZslQueueHead := by
    intro he
    have h0 : (s.mZslQueueTail + 0) % Q = (s.mZslQueueTail + L.length) % Q := by
      rw [Nat.add_zero, Nat.mod_eq_of_lt h4, ← h5]
      exact he
    have := window_inj 0 L.length hQ0 h6 h0
    omega
  have hstate : (processNewZslBuffer s b).state
      = { s with
          mZslQueue := (s.mZslQueue.set s.mZslQueueTail emptyPair).set
              s.mZslQueueHead ⟨b, Metadata.empty⟩,
          mZslQueueTail := (s.mZslQueueTail + 1) % s.mZslQueue.length,
          mZslQueueHead := (s.mZslQueueHead + 1) % s.mZslQueue.length } := by
    have hmid : (processNewZslBuffer s b).state
        = findMatchesLocked
            { s with
              mZslQueue := (s.mZslQueue.set s.mZslQueueTail emptyPair).set
                  s.mZslQueueHead ⟨b, Metadata.empty⟩,
              mZslQueueTail := (s.mZslQueueTail + 1) % s.mZslQueue.length,
              mZslQueueHead := (s.mZslQueueHead + 1) % s.mZslQueue.length } := by
      simp [processNewZslBuffer, hns, hevict]
    rw [hmid, findMatchesLocked_id]
    exact h3
  have hrel : (processNewZslBuffer s b).released
      = [(s.mZslQueue.getD s.mZslQueueTail emptyPair).buffer] := by
    simp [processNewZslBuffer, hns, hevict]
  have hlen' : (L.drop 1 ++ [b]).length = Q - 1 := by
    simp
    omega
  constructor
  · rw [hstate]
    refine ⟨h1, by simpa using h2, h3, ?_, ?_, ?_, ?_, ?_⟩
    · show (s.mZslQueueTail + 1) % s.mZslQueue.length < Q
      rw [h2]
      exact Nat.mod_lt _ hQ0
    · show (s.mZslQueueHead + 1) % s.mZslQueue.length
        = ((s.mZslQueueTail + 1) % s.mZslQueue.length + (L.drop 1 ++ [b]).length) % Q
      rw [hevict, h2, hlen', Nat.mod_add_mod]
      have he2 : s.mZslQueueTail + 1 + (Q - 1) = s.mZslQueueTail + Q := by omega
      rw [he2, Nat.add_mod_right, Nat.mod_eq_of_lt h4]
    · show (L.drop 1 ++ [b]).length < Q
      omega
    · intro r hr
      rw [hlen'] at hr
      show ((s.mZslQueue.set s.mZslQueueTail emptyPair).set s.mZslQueueHead
          ⟨b, Metadata.empty⟩).getD
            (((s.mZslQueueTail + 1) % s.mZslQueue.length + r) % Q) emptyPair
        = ⟨(L.drop 1 ++ [b]).getD r noBuffer, Metadata.empty⟩
      rw [h2, Nat.mod_add_mod]
      by_cases hrn : r = L.length - 1
      · have hpos : s.mZslQueueTail + 1 + r = s.mZslQueueTail + L.length := by omega
        rw [hpos, ← h5]
        rw [getD_set_self _ _ _ _ (by simpa [h2] using hhead)]
        have hrr : r = (L.drop 1).length := by simp; omega
        rw [hrr, getD_append_at_length]
      · have hr1 : 1 + r < L.length := by omega
        have hpne : (s.mZslQueueTail + 1 + r) % Q ≠ s.mZslQueueHead := by
          rw [h5, Nat.add_assoc]
          intro hcon
          have := window_inj (1 + r) L.length (by omega) h6 hcon
          omega
        have hpnt : (s.mZslQueueTail + 1 + r) % Q ≠ s.mZslQueueTail := by
          rw [Nat.add_assoc]
          intro hcon
          have h0 : (s.mZslQueueTail + (1 + r)) % Q = (s.mZslQueueTail + 0) % Q := by
            rw [hcon, Nat.add_zero, Nat.mod_eq_of_lt h4]
          have := window_inj (1 + r) 0 (by omega) hQ0 h0
          omega
        rw [getD_set_ne _ _ _ _ _ hpne, getD_set_ne _ _ _ _ _ hpnt]
        have h7r := h7 (1 + r) hr1
        rw [← Nat.add_assoc] at h7r
        rw [h7r]
        rw [getD_append_left _ _ _ _ (by simp; omega), getD_drop_one]
        rw [show r + 1 = 1 + r by omega]
    · intro j hj hnot
      rw [hlen'] at hnot
      show ((s.mZslQueue.set s.mZslQueueTail emptyPair).set s.mZslQueueHead
          ⟨b, Metadata.empty⟩).getD j emptyPair = emptyPair
      by_cases hjt : j = s.mZslQueueTail
      · subst hjt
        rw [getD_set_ne _ _ _ _ _ hth]
        exact getD_set_self _ _ _ _ (by rw [h2]; exact h4)
      · have hjh : j ≠ s.mZslQueueHead := by
          have hx := hnot (L.length - 1) (by omega)
          rw [h2, Nat.mod_add_mod] at hx
          have he3 : s.mZslQueueTail + 1 + (L.length - 1)
              = s.mZslQueueTail + L.length := by omega
          rw [he3, ← h5] at hx
          exact hx
        have hold : ∀ r, r < L.length → j ≠ (s.mZslQueueTail + r) % Q := by
          intro r hrn2
          cases r with
          | zero =>
            rw [Nat.add_zero, Nat.mod_eq_of_lt h4]
            exact hjt
          | succ m =>
            have hx := hnot m (by omega)
            rw [h2, Nat.mod_add_mod] at hx
            rw [show s.mZslQueueTail + (m + 1) = s.mZslQueueTail + 1 + m by omega]
            exact hx
        rw [getD_set_ne _ _ _ _ _ hjh, getD_set_ne _ _ _ _ _ hjt]
        exact h8 j hj hold
  · rw [hrel]
    have h70 := h7 0 (by omega)
    rw [Nat.add_zero, Nat.mod_eq_of_lt h4] at h70
    rw [h70]

/-- Single-step behaviour of buffer admission on a non-full ring in the
no-metadata scenario: nothing is evicted, the incoming buffer lands at the
head position and the head cursor advances. -/
theorem step_wf_notfull (Q : Nat) (hQ : 2 ≤ Q) (s : ZslState) (L : List Buffer)
    (b : Buffer) (hw : wfScenario s Q L) (hnf : L.length ≠ Q - 1) :
    wfScenario (processNewZslBuffer s b).state Q (L ++ [b])
    ∧ (processNewZslBuffer s b).released = [] := by
  obtain ⟨h1, h2, h3, h4, h5, h6, h7, h8⟩ := hw
  have hQ0 : 0 < Q := by omega
  have hnQ : L.length < Q - 1 := by omega
  have hnoev : ¬ (s.mZslQueueHead + 1) % s.mZslQueue.length = s.mZslQueueTail := by
    rw [h2, h5]
    intro hcon
    exact hnf ((full_iff hQ0 h4 h6).mp hcon)
  have hns : ¬ s.mState = ProcState.LOCKED := by rw [h1]; intro hc; cases hc
  have hhead : s.mZslQueueHead < Q := by
    rw [h5]; exact Nat.mod_lt _ hQ0
  have hstate : (processNewZslBuffer s b).state
      = { s with
          mZslQueue := s.mZslQueue.set s.mZslQueueHead ⟨b, Metadata.empty⟩,
          mZslQueueHead := (s.mZslQueueHead + 1) % s.mZslQueue.length } := by
    have hmid : (processNewZslBuffer s b).state
        = findMatchesLocked
            { s with
              mZslQueue := s.mZslQueue.set s.mZslQueueHead ⟨b, Metadata.empty⟩,
              mZslQueueHead := (s.mZslQueueHead + 1) % s.mZslQueue.length } := by
      simp [processNewZslBuffer, hns, hnoev]
    rw [hmid, findMatchesLocked_id]
    exact h3
  have hrel : (processNewZslBuffer s b).released = [] := by
    simp [processNewZslBuffer, hns, hnoev]
  have hlen' : (L ++ [b]).length = L.length + 1 := by simp
  refine ⟨?_, hrel⟩
  rw [hstate]
  refine ⟨h1, by simpa using h2, h3, h4, ?_, ?_, ?_, ?_⟩
  · show (s.mZslQueueHead + 1) % s.mZslQueue.length
      = (s.mZslQueueTail + (L ++ [b]).length) % Q
    rw [h2, h5, hlen', Nat.mod_add_mod, Nat.add_assoc]
  · show (L ++ [b]).length < Q
    omega
  · intro r hr
    rw [hlen'] at hr
    show (s.mZslQueue.set s.mZslQueueHead ⟨b, Metadata.empty⟩).getD
        ((s.mZslQueueTail + r) % Q) emptyPair
      = ⟨(L ++ [b]).getD r noBuffer, Metadata.empty⟩
    by_cases hrn : r = L.length
    · subst hrn
      rw [← h5]
      rw [getD_set_self _ _ _ _ (by rw [h2]; exact hhead)]
      rw [getD_append_at_length]
    · have hrl : r < L.length := by omega
      have hpne : (s.mZslQueueTail + r) % Q ≠ s.mZslQueueHead := by
        rw [h5]
        intro hcon
        have := window_inj r L.length (by omega) h6 hcon
        omega
      rw [getD_set_ne _ _ _ _ _ hpne, h7 r hrl]
      rw [getD_append_left _ _ _ _ hrl]
  · intro j hj hnot
    rw [hlen'] at hnot
    show (s.mZslQueue.set s.mZslQueueHead ⟨b, Metadata.empty⟩).getD j emptyPair
      = emptyPair
    have hjh : j ≠ s.mZslQueueHead := by
      have hx := hnot L.length (by omega)
      rw [← h5] at hx
      exact hx
    have hold : ∀ r, r < L.length → j ≠ (s.mZslQueueTail + r) % Q := by
      intro r hrn2
      exact hnot r (by omega)
    rw [getD_set_ne _ _ _ _ _ hjh]
    exact h8 j hj hold

/-- Feeding a buffer list through the processor refines the bounded FIFO of
capacity depth-1: the final ring content is boundedPush and the released
buffers are boundedReleased. -/
theorem admitAll_wf (Q : Nat) (hQ : 2 ≤ Q) :
    ∀ (bs : List Buffer) (s : ZslState) (L : List Buffer),
      wfScenario s Q L →
      wfScenario (admitAll s bs).1 Q (boundedPush Q L bs) ∧
      (admitAll s bs).2 = boundedReleased Q L bs := by
  intro bs
  induction bs with
  | nil => intro s L hw; exact ⟨hw, rfl⟩
  | cons b rest ih =>
    intro s L hw
    by_cases hfull : L.length = Q - 1
    · obtain ⟨hw', hrel⟩ := step_wf_full Q hQ s L b hw hfull
      obtain ⟨hw2, hrel2⟩ := ih (processNewZslBuffer s b).state (L.drop 1 ++ [b]) hw'
      constructor
      · simpa [admitAll, boundedPush, hfull] using hw2
      · simp [admitAll, boundedReleased, hfull, hrel, hrel2]
    · obtain ⟨hw', hrel⟩ := step_wf_notfull Q hQ s L b hw hfull
      obtain ⟨hw2, hrel2⟩ := ih (processNewZslBuffer s b).state (L ++ [b]) hw'
      constructor
      · simpa [admitAll, boundedPush, hfull] using hw2
      · simp [admitAll, boundedReleased, hfull, hrel, hrel2]

/-- The constructed initial state is well formed with an empty window. -/
theorem initial_wf (Q F : Nat) (hQ : 2 ≤ Q) : wfScenario (initialState Q F) Q [] := by
  refine ⟨rfl, by simp [initialState], ?_, ?_, ?_, ?_, ?_, ?_⟩
  · intro f hf
    simp [initialState] at hf
    exact hf.2
  · show (0 : Nat) < Q
    omega
  · show (0 : Nat) = (0 + ([] : List Buffer).length) % Q
    simp
  · show ([] : List Buffer).length < Q
    simp
    omega
  · intro r hr
    simp at hr
  · intro j _ _
    show (List.replicate Q emptyPair).getD j emptyPair = emptyPair
    exact getD_of_all (P := fun p : ZslPair => p = emptyPair) rfl _
      (fun a ha => List.eq_of_mem_replicate ha) j

/-- Closed form of boundedReleased: the evicted buffers are the oldest
prefix that no longer fits in the capacity. -/
theorem boundedReleased_eq (Q : Nat) (hQ : 2 ≤ Q) :
    ∀ (bs L : List Buffer), L.length ≤ Q - 1 →
      boundedReleased Q L bs = (L ++ bs).take (L.length + bs.length - (Q - 1)) := by
  intro bs
  induction bs with
  | nil =>
    intro L hL
    have hc : L.length + ([] : List Buffer).length - (Q - 1) = 0 := by
      simp
      omega
    rw [hc]
    simp [boundedReleased]
  | cons b rest ih =>
    intro L hL
    by_cases hfull : L.length = Q - 1
    · simp only [boundedReleased]
      rw [if_pos hfull]
      have hL' : (L.drop 1 ++ [b]).length ≤ Q - 1 := by
        simp
        omega
      rw [ih _ hL']
      have hL1 : 1 ≤ L.length := by omega
      cases L with
      | nil => simp at hL1
      | cons x L2 =>
        simp only [List.length_cons] at hfull
        have hd : List.drop 1 (x :: L2) = L2 := rfl
        rw [hd]
        have hc1 : (L2 ++ [b]).length + rest.length - (Q - 1) = rest.length := by
          simp
          omega
        have hc2 : (x :: L2).length + (b :: rest).length - (Q - 1)
            = rest.length + 1 := by
          simp
          omega
        rw [hc1, hc2, List.append_assoc]
        rfl
    · simp only [boundedReleased]
      rw [if_neg hfull]
      have hL' : (L ++ [b]).length ≤ Q - 1 := by
        simp
        omega
      rw [ih _ hL']
      have hc : (L ++ [b]).length + rest.length - (Q - 1)
          = L.length + (b :: rest).length - (Q - 1) := by
        simp
        omega
      rw [hc, List.append_assoc]
      rfl

/-- Closed form of boundedPush: the surviving ring content is the newest
suffix that fits in the capacity. -/
theorem boundedPush_eq (Q : Nat) (hQ : 2 ≤ Q) :
    ∀ (bs L : List Buffer), L.length ≤ Q - 1 →
      boundedPush Q L bs = (L ++ bs).drop (L.length + bs.length - (Q - 1)) := by
  intro bs
  induction bs with
  | nil =>
    intro L hL
    have hc : L.length + ([] : List Buffer).length - (Q - 1) = 0 := by
      simp
      omega
    rw [hc]
    simp [boundedPush]
  | cons b rest ih =>
    intro L hL
    by_cases hfull : L.length = Q - 1
    · simp only [boundedPush]
      rw [if_pos hfull]
      have hL' : (L.drop 1 ++ [b]).length ≤ Q - 1 := by
        simp
        omega
      rw [ih _ hL']
      have hL1 : 1 ≤ L.length := by omega
      cases L with
      | nil => simp at hL1
      | cons x L2 =>
        simp only [List.length_cons] at hfull
        have hd : List.drop 1 (x :: L2) = L2 := rfl
        rw [hd]
        have hc1 : (L2 ++ [b]).length + rest.length - (Q - 1) = rest.length := by
          simp
          omega
        have hc2 : (x :: L2).length + (b :: rest).length - (Q - 1)
            = rest.length + 1 := by
          simp
          omega
        rw [hc1, hc2, List.append_assoc]
        rfl
    · simp only [boundedPush]
      rw [if_neg hfull]
      have hL' : (L ++ [b]).length ≤ Q - 1 := by
        simp
        omega
      rw [ih _ hL']
      have hc : (L ++ [b]).length + rest.length - (Q - 1)
          = L.length + (b :: rest).length - (Q - 1) := by
        simp
        omega
      rw [hc, List.append_assoc]
      rfl

/-- In a well-formed scenario state whose window buffers all carry nonzero
timestamps, the buffers present in the ring are exactly the window. -/
theorem wf_presentBuffers (Q : Nat) (hQ : 2 ≤ Q) (s : ZslState) (L : List Buffer)
    (hw : wfScenario s Q L) (hts : ∀ b ∈ L, b.mTimestamp ≠ 0) :
    ∀ b, b ∈ presentBuffers s.mZslQueue ↔ b ∈ L := by
  obtain ⟨h1, h2, h3, h4, h5, h6, h7, h8⟩ := hw
  intro b
  constructor
  · intro hb
    rw [presentBuffers, List.mem_filterMap] at hb
    obtain ⟨p, hp, hpe⟩ := hb
    by_cases hz : p.buffer.mTimestamp = 0
    · rw [if_pos hz] at hpe
      cases hpe
    · rw [if_neg hz] at hpe
      have hpb : p.buffer = b := by
        injection hpe
      obtain ⟨j, hj, hg⟩ := (mem_iff_getD emptyPair s.mZslQueue p).mp hp
      rw [h2] at hj
      by_cases hwin : ∃ r, r < L.length ∧ j = (s.mZslQueueTail + r) % Q
      · obtain ⟨r, hr, hjr⟩ := hwin
        rw [hjr] at hg
        rw [h7 r hr] at hg
        apply (mem_iff_getD noBuffer L b).mpr
        refine ⟨r, hr, ?_⟩
        rw [← hpb, ← hg]
      · have hnot : ∀ r, r < L.length → j ≠ (s.mZslQueueTail + r) % Q := by
          intro r hr hjr
          exact hwin ⟨r, hr, hjr⟩
        have := h8 j hj hnot
        rw [this] at hg
        rw [← hg] at hz
        exact absurd rfl hz
  · intro hb
    obtain ⟨r, hr, hgr⟩ := (mem_iff_getD noBuffer L b).mp hb
    have h7r := h7 r hr
    rw [presentBuffers, List.mem_filterMap]
    refine ⟨⟨b, Metadata.empty⟩, ?_, ?_⟩
    · apply (mem_iff_getD emptyPair s.mZslQueue _).mpr
      refine ⟨(s.mZslQueueTail + r) % Q, ?_, ?_⟩
      · rw [h2]
        exact Nat.mod_lt _ (by omega)
      · rw [h7r, hgr]
    · have hnz : b.mTimestamp ≠ 0 := hts b hb
      simp [hnz]

/-- C3 counterexample: with ring depth 4 and five buffers of distinct
nonzero timestamps and no metadata, the processor releases the two oldest
buffers (not only the oldest) and leaves three (depth minus one) buffers in
the ring, not four: the head/tail convention keeps one slot empty. -/
theorem C3_counterexample :
    (admitAll (initialState 4 2) [⟨1, 1⟩, ⟨2, 2⟩, ⟨3, 3⟩, ⟨4, 4⟩, ⟨5, 5⟩]).2
        = [⟨1, 1⟩, ⟨2, 2⟩] ∧
    (admitAll (initialState 4 2) [⟨1, 1⟩, ⟨2, 2⟩, ⟨3, 3⟩, ⟨4, 4⟩, ⟨5, 5⟩]).2
        ≠ [⟨1, 1⟩] ∧
    (presentBuffers (admitAll (initialState 4 2)
        [⟨1, 1⟩, ⟨2, 2⟩, ⟨3, 3⟩, ⟨4, 4⟩, ⟨5, 5⟩]).1.mZslQueue).length = 3 := by
  decide

/-- C3 amended: for a ring of depth Q starting empty, admitting Q+1 buffers
with nonzero timestamps and no matching metadata leaves exactly the most
recent Q-1 buffers present (the usable capacity is Q-1 because head = tail
denotes an empty ring) and releases exactly the two oldest buffers, in
order, each once; eviction is strict FIFO: whenever (head+1) mod Q = tail,
the step releases the tail slot's buffer, clears that slot, and advances
both cursors. -/
theorem C3_fifo_eviction (Q F : Nat) (hQ : 2 ≤ Q) (bs : List Buffer)
    (hlen : bs.length = Q + 1) (hts : ∀ b ∈ bs, b.mTimestamp ≠ 0) :
    ((admitAll (initialState Q F) bs).2 = bs.take 2)
    ∧ (∀ b, b ∈ presentBuffers ((admitAll (initialState Q F) bs).1.mZslQueue)
        ↔ b ∈ bs.drop 2)
    ∧ (∀ (s : ZslState) (b : Buffer), s.mState = ProcState.RUNNING →
        (s.mZslQueueHead + 1) % s.mZslQueue.length = s.mZslQueueTail →
        (processNewZslBuffer s b).released
            = [(s.mZslQueue.getD s.mZslQueueTail emptyPair).buffer]
        ∧ (processNewZslBuffer s b).state.mZslQueueTail
            = (s.mZslQueueTail + 1) % s.mZslQueue.length
        ∧ (processNewZslBuffer s b).state.mZslQueueHead
            = (s.mZslQueueHead + 1) % s.mZslQueue.length
        ∧ (s.mZslQueueTail ≠ s.mZslQueueHead →
            s.mZslQueueTail < s.mZslQueue.length →
            (processNewZslBuffer s b).state.mZslQueue.getD s.mZslQueueTail emptyPair
              = emptyPair)) := by
  have hw0 := initial_wf Q F hQ
  obtain ⟨hw, hrel⟩ := admitAll_wf Q hQ bs (initialState Q F) [] hw0
  have hcount : ([] : List Buffer).length + bs.length - (Q - 1) = 2 := by
    simp
    omega
  have hLfinal : boundedPush Q [] bs = bs.drop 2 := by
    rw [boundedPush_eq Q hQ bs [] (by simp), hcount]
    rfl
  have hRfinal : boundedReleased Q [] bs = bs.take 2 := by
    rw [boundedReleased_eq Q hQ bs [] (by simp), hcount]
    rfl
  refine ⟨by rw [hrel, hRfinal], ?_, ?_⟩
  · rw [← hLfinal]
    apply wf_presentBuffers Q hQ _ _ hw
    intro b hb
    apply hts
    rw [hLfinal] at hb
    exact List.drop_subset _ _ hb
  · intro s b h1 hev
    have hns : ¬ s.mState = ProcState.LOCKED := by rw [h1]; intro hc; cases hc
    have hq2 : (processNewZslBuffer s b).state.mZslQueue
        = (findMatchesQueue
            ((s.mZslQueue.set s.mZslQueueTail emptyPair).set s.mZslQueueHead
              ⟨b, Metadata.empty⟩) s.mFrameList).1 := by
      simp [processNewZslBuffer, hns, hev, findMatchesLocked]
    refine ⟨by simp [processNewZslBuffer, hns, hev],
      by simp [processNewZslBuffer, hns, hev, findMatchesLocked],
      by simp [processNewZslBuffer, hns, hev, findMatchesLocked], ?_⟩
    intro hth htlt
    rw [hq2]
    have hq : ((s.mZslQueue.set s.mZslQueueTail emptyPair).set s.mZslQueueHead
        ⟨b, Metadata.empty⟩).getD s.mZslQueueTail emptyPair = emptyPair := by
      rw [getD_set_ne _ _ _ _ _ hth]
      exact getD_set_self _ _ _ _ htlt
    rcases fmq_entry
        ((s.mZslQueue.set s.mZslQueueTail emptyPair).set s.mZslQueueHead
          ⟨b, Metadata.empty⟩) s.mFrameList s.mZslQueueTail with
      hL | ⟨_, hts0, _, _, _⟩
    · rw [hL, hq]
    · rw [hq] at hts0
      exact absurd rfl hts0

/-- C3 amended witness: depth 4, five buffers with timestamps 1..5. -/
theorem C3_fifo_eviction_witness :
    (2 ≤ 4) ∧
    ([⟨1, 1⟩, ⟨2, 2⟩, ⟨3, 3⟩, ⟨4, 4⟩, ⟨5, 5⟩] : List Buffer).length = 4 + 1 ∧
    (admitAll (initialState 4 2) [⟨1, 1⟩, ⟨2, 2⟩, ⟨3, 3⟩, ⟨4, 4⟩, ⟨5, 5⟩]).2
      = ([⟨1, 1⟩, ⟨2, 2⟩, ⟨3, 3⟩, ⟨4, 4⟩, ⟨5, 5⟩] : List Buffer).take 2 :=
  ⟨by decide, by decide,
    (C3_fifo_eviction 4 2 (by decide) [⟨1, 1⟩, ⟨2, 2⟩, ⟨3, 3⟩, ⟨4, 4⟩, ⟨5, 5⟩]
      (by decide) (by decide)).1⟩

end Zsl
